import Mathlib

/-!
Shallow embedding of unipiSync (src/unipiSync.py): a one-shot reconciliation
of DHCP client names into a DNS host-record store.

The embedding follows the Python source function by function:
  - `sanitize_hostname`  embeds `UnifiController._sanitize_hostname`
  - `handle_duplicates`  embeds `UnifiController._handle_duplicates`
  - `client_list` / `get_active_clients` embed `UnifiController.get_active_clients`
  - `authenticate`       embeds `PiholeAPI.authenticate`'s success condition
  - `syncClient` / `syncLoop` / `sync_dhcp_to_dns` embed the per-record
    branch structure and the counter loop of `sync_dhcp_to_dns`

Remote I/O is abstracted: the current DNS record set is a mapping
`String → Option String` (fqdn to address), and the store's upsert operation
(`PiholeAPI.add_dns_record`) is a function `String → String → Bool` giving
each call's success; the list of (hostname, ip) pairs actually passed to the
store is returned alongside the counters so that "no write happened" is an
observable statement.

Strings are modelled by Lean `String`; Python's `str.lower` is modelled on
its ASCII range (`pyLower`), which is exact on every character that can
survive the sanitizer's final `[a-z0-9\-.]` filter.
-/

namespace UnipiSync

/-- One normalized client entry: the dict `{'ip': ..., 'hostname': ...}`
built in `get_active_clients`. -/
structure Client where
  ip : String
  hostname : String
deriving Repr, DecidableEq

/-- One raw client object from the Unifi controller response: `ip`,
`hostname` and `name` fields, with a missing/None field modelled as `""`
(both are falsy in Python). -/
structure RawClient where
  ip : String
  hostname : String
  name : String
deriving Repr, DecidableEq

/-- ASCII case mapping of Python's `str.lower`: `A`-`Z` (codes 65-90) map
to their lowercase (code + 32); every other character is kept. -/
def pyLower (c : Char) : Char :=
  if 65 ≤ c.toNat && c.toNat ≤ 90 then Char.ofNat (c.toNat + 32) else c

/-- The character class `[a-z0-9\-.]` of the sanitizer's final
`re.sub(r'[^a-z0-9\-\.]', '', ...)`: lowercase letter (97-122),
digit (48-57), hyphen (45) or dot (46). -/
def isAllowed (c : Char) : Bool :=
  (97 ≤ c.toNat && c.toNat ≤ 122) || (48 ≤ c.toNat && c.toNat ≤ 57) ||
    c.toNat == 45 || c.toNat == 46

/-- The character pipeline of `_sanitize_hostname`: lowercase, replace
spaces by hyphens, strip the ASCII apostrophe (39) and the right single
quotation mark (0x2019), then remove every character outside
`[a-z0-9\-.]`. -/
def sanitizeChars (l : List Char) : List Char :=
  (((l.map pyLower).map
    (fun c => if c = ' ' then '-' else c)).filter
    (fun c => !(c.toNat == 39 || c.toNat == 0x2019))).filter isAllowed

/-- `_sanitize_hostname`, as a function on strings. -/
def sanitize_hostname (s : String) : String :=
  String.mk (sanitizeChars s.data)

/-- Number of occurrences of hostname `h` in `l`: the value
`Counter([c['hostname'] for c in client_list])[h]`. -/
def countName (l : List Client) (h : String) : Nat :=
  (l.map Client.hostname).count h

/-- `ip.split('.')[-1]`: the final dot-delimited segment of the address. -/
def lastOctet (ip : String) : String :=
  String.mk ((ip.data.splitOn '.').getLastD [])

/-- The per-entry renaming step of `_handle_duplicates`: an entry whose
hostname occurs more than once (per the pre-pass `counts`) gets
`"-" + lastOctet(ip)` appended; a unique hostname is kept. -/
def resolveClient (counts : String → Nat) (c : Client) : Client :=
  if counts c.hostname > 1 then
    { ip := c.ip, hostname := c.hostname ++ "-" ++ lastOctet c.ip }
  else
    { ip := c.ip, hostname := c.hostname }

/-- The output-building loop of `_handle_duplicates`, appending one
resolved entry per input entry in order. -/
def handleDuplicatesLoop (counts : String → Nat) : List Client → List Client
  | [] => []
  | c :: rest => resolveClient counts c :: handleDuplicatesLoop counts rest

/-- `_handle_duplicates`: count every hostname over the full input first,
then rename each duplicated entry. -/
def handle_duplicates (l : List Client) : List Client :=
  handleDuplicatesLoop (countName l) l

/-- `hostname = client.get('hostname') or client.get('name')`. -/
def effectiveName (r : RawClient) : String :=
  if r.hostname ≠ "" then r.hostname else r.name

/-- The subnet allowlist check of `get_active_clients`: with no configured
subnets every address passes, otherwise the address must start with one of
them. -/
def passesSubnetFilter (subnets : List String) (ip : String) : Bool :=
  subnets.isEmpty || subnets.any (fun s => ip.startsWith s)

/-- The `client_list` built by `get_active_clients` before duplicate
handling: entries with a falsy ip or name are dropped, the subnet filter is
applied, and the name is sanitized. -/
def client_list (raw : List RawClient) (subnets : List String) : List Client :=
  raw.filterMap (fun r =>
    if r.ip = "" || effectiveName r = "" then none
    else if !passesSubnetFilter subnets r.ip then none
    else some { ip := r.ip, hostname := sanitize_hostname (effectiveName r) })

/-- `get_active_clients`: filter and sanitize, then handle duplicates. -/
def get_active_clients (raw : List RawClient) (subnets : List String) : List Client :=
  handle_duplicates (client_list raw subnets)

/-- `PiholeAPI.authenticate` returns True exactly when the response carried
both a session id and a CSRF token (a failed request is modelled by `none`
fields). -/
def authenticate (sid csrf : Option String) : Bool :=
  sid.isSome && csrf.isSome

/-- Per-record outcome tallied by the sync loop. -/
inductive Action where
  | Added
  | Updated
  | Skipped
  | Failed
deriving Repr, DecidableEq

/-- The four counters of the sync loop. -/
structure SyncCounts where
  added : Nat
  updated : Nat
  skipped : Nat
  failed : Nat
deriving Repr, DecidableEq

/-- `fqdn = f"{client['hostname']}.{config.dns_domain}"`. -/
def fqdnOf (domain : String) (c : Client) : String :=
  c.hostname ++ "." ++ domain

/-- One iteration of the sync loop body for client `c`: the branch on
membership of the fqdn in `existing`, the address comparison, the dry-run
branch, and the call to `add_dns_record` (whose success is `upsert`); the
second component lists the (hostname, ip) pairs passed to the store. -/
def syncClient (existing : String → Option String) (domain : String)
    (upsert : String → String → Bool) (dryRun : Bool) (c : Client) :
    Action × List (String × String) :=
  match existing (fqdnOf domain c) with
  | some addr =>
    if addr = c.ip then
      (Action.Skipped, [])
    else if dryRun then
      (Action.Updated, [])
    else if upsert c.hostname c.ip then
      (Action.Updated, [(c.hostname, c.ip)])
    else
      (Action.Failed, [(c.hostname, c.ip)])
  | none =>
    if dryRun then
      (Action.Added, [])
    else if upsert c.hostname c.ip then
      (Action.Added, [(c.hostname, c.ip)])
    else
      (Action.Failed, [(c.hostname, c.ip)])

/-- Increment the counter matching one outcome. -/
def tally (counts : SyncCounts) : Action → SyncCounts
  | Action.Added => { counts with added := counts.added + 1 }
  | Action.Updated => { counts with updated := counts.updated + 1 }
  | Action.Skipped => { counts with skipped := counts.skipped + 1 }
  | Action.Failed => { counts with failed := counts.failed + 1 }

/-- The `for client in clients` loop: counters over all records and the
concatenated store-call trace, in input order. -/
def syncLoop (existing : String → Option String) (domain : String)
    (upsert : String → String → Bool) (dryRun : Bool) :
    List Client → SyncCounts × List (String × String)
  | [] => (⟨0, 0, 0, 0⟩, [])
  | c :: rest =>
    let head := syncClient existing domain upsert dryRun c
    let tail := syncLoop existing domain upsert dryRun rest
    (tally tail.1 head.1, head.2 ++ tail.2)

/-- `sync_dhcp_to_dns`: empty client list returns success without touching
the store; a failed Pi-hole authentication aborts with failure and no store
call; otherwise the loop runs and overall success is `failed == 0`.
Returned: (success flag, counters, store-call trace). -/
def sync_dhcp_to_dns (clients : List Client) (sid csrf : Option String)
    (existing : String → Option String) (domain : String)
    (upsert : String → String → Bool) (dryRun : Bool) :
    Bool × SyncCounts × List (String × String) :=
  if clients.isEmpty then
    (true, ⟨0, 0, 0, 0⟩, [])
  else if !authenticate sid csrf then
    (false, ⟨0, 0, 0, 0⟩, [])
  else
    let r := syncLoop existing domain upsert dryRun clients
    (r.1.failed == 0, r.1, r.2)

/-- The outcome tallied for one client (first component of `syncClient`). -/
def actionOf (existing : String → Option String) (domain : String)
    (upsert : String → String → Bool) (dryRun : Bool) (c : Client) : Action :=
  (syncClient existing domain upsert dryRun c).1

/-- Counters obtained by counting each outcome in a list of per-record
outcomes. -/
def countsOf (acts : List Action) : SyncCounts :=
  ⟨acts.count Action.Added, acts.count Action.Updated,
   acts.count Action.Skipped, acts.count Action.Failed⟩

end UnipiSync

namespace UnipiSync

/-- Every character the sanitizer outputs lies in `[a-z0-9\-.]`. -/
theorem sanitizeChars_allowed (l : List Char) :
    ∀ c ∈ sanitizeChars l, isAllowed c = true := by
  intro c hc
  exact (List.mem_filter.mp hc).2

/-- An allowed character is not an ASCII uppercase letter, so `pyLower`
keeps it. -/
theorem pyLower_of_allowed (c : Char) (h : isAllowed c = true) : pyLower c = c := by
  have h' : ¬ ((65 ≤ c.toNat && c.toNat ≤ 90) = true) := by
    simp only [isAllowed, Bool.or_eq_true, Bool.and_eq_true, decide_eq_true_eq,
      beq_iff_eq] at h
    simp only [Bool.and_eq_true, decide_eq_true_eq, not_and]
    omega
  simp only [pyLower, h']
  rfl

/-- An allowed character is not a space. -/
theorem ne_space_of_allowed (c : Char) (h : isAllowed c = true) : ¬ (c = ' ') := by
  intro he
  rw [he] at h
  exact absurd h (by decide)

/-- An allowed character is neither apostrophe, so the apostrophe filter
keeps it. -/
theorem apostrophe_kept_of_allowed (c : Char) (h : isAllowed c = true) :
    (!(c.toNat == 39 || c.toNat == 0x2019)) = true := by
  simp only [isAllowed, Bool.or_eq_true, Bool.and_eq_true, decide_eq_true_eq,
    beq_iff_eq] at h
  simp only [Bool.not_eq_true', Bool.or_eq_false_iff, beq_eq_false_iff_ne, ne_eq]
  omega

/-- Mapping a function that fixes every element of a list is the identity. -/
theorem map_fixed {α : Type} (f : α → α) :
    ∀ l : List α, (∀ c ∈ l, f c = c) → l.map f = l
  | [], _ => rfl
  | c :: rest, h => by
    rw [List.map_cons, h c (List.mem_cons_self c rest),
      map_fixed f rest (fun x hx => h x (List.mem_cons_of_mem c hx))]

/-- A list of allowed characters is a fixed point of the sanitizer
pipeline. -/
theorem sanitizeChars_fixed (l : List Char) (h : ∀ c ∈ l, isAllowed c = true) :
    sanitizeChars l = l := by
  unfold sanitizeChars
  rw [map_fixed pyLower l (fun c hc => pyLower_of_allowed c (h c hc))]
  rw [map_fixed _ l (fun c hc => if_neg (ne_space_of_allowed c (h c hc)))]
  rw [List.filter_eq_self.mpr (fun c hc => apostrophe_kept_of_allowed c (h c hc))]
  rw [List.filter_eq_self.mpr h]

/-- C8: the name sanitizer is idempotent: for every input string `x`,
`sanitize(sanitize(x)) == sanitize(x)`. -/
theorem sanitize_hostname_idempotent (x : String) :
    sanitize_hostname (sanitize_hostname x) = sanitize_hostname x := by
  unfold sanitize_hostname
  exact congrArg String.mk
    (sanitizeChars_fixed (sanitizeChars x.data) (sanitizeChars_allowed x.data))

/-- C9: for every input string the sanitizer's output contains only
characters in `[a-z0-9\-.]`; `sanitize("Bob's Phone") == "bobs-phone"` and
`sanitize("") == ""`. -/
theorem sanitize_hostname_charset :
    (∀ s : String, (sanitize_hostname s).data.all isAllowed = true)
    ∧ sanitize_hostname "Bob's Phone" = "bobs-phone"
    ∧ sanitize_hostname "" = "" := by
  refine ⟨fun s => ?_, by decide, rfl⟩
  exact List.all_eq_true.mpr (fun c hc => sanitizeChars_allowed s.data c hc)

/-- The output loop of the duplicate handler is a map of the per-entry
renaming step. -/
theorem handleDuplicatesLoop_eq_map (counts : String → Nat) :
    ∀ l : List Client, handleDuplicatesLoop counts l = l.map (resolveClient counts)
  | [] => rfl
  | c :: rest => by
    rw [handleDuplicatesLoop, List.map_cons, handleDuplicatesLoop_eq_map counts rest]

/-- `_handle_duplicates` maps each entry through the renaming step, with
the counts taken over the full input. -/
theorem handle_duplicates_eq_map (l : List Client) :
    handle_duplicates l = l.map (resolveClient (countName l)) :=
  handleDuplicatesLoop_eq_map (countName l) l

/-- Appending to the same string on the left is injective. -/
theorem string_append_cancel_left (s a b : String) (h : s ++ a = s ++ b) : a = b := by
  cases s with
  | mk ls =>
    cases a with
    | mk la =>
      cases b with
      | mk lb =>
        have h' : ls ++ la = ls ++ lb := congrArg String.data h
        exact congrArg String.mk (List.append_cancel_left h')

/-- C4: the duplicate resolver counts names over the full input first, then
appends `"-" + lastOctet(address)` to every entry whose name's count
exceeds 1, keeps unique names unchanged, and preserves order; the two
`printer` entries become `printer-5` and `printer-9`. -/
theorem handle_duplicates_spec (l : List Client) :
    (handle_duplicates l).length = l.length
    ∧ (∀ (i : Nat) (c : Client), l[i]? = some c →
        (handle_duplicates l)[i]? = some
          ⟨c.ip, if countName l c.hostname > 1
                 then c.hostname ++ "-" ++ lastOctet c.ip
                 else c.hostname⟩)
    ∧ handle_duplicates [⟨"10.0.0.5", "printer"⟩, ⟨"10.0.0.9", "printer"⟩] =
        [⟨"10.0.0.5", "printer-5"⟩, ⟨"10.0.0.9", "printer-9"⟩] := by
  refine ⟨?_, ?_, by decide⟩
  · rw [handle_duplicates_eq_map, List.length_map]
  · intro i c hc
    rw [handle_duplicates_eq_map, List.getElem?_map, hc, Option.map_some']
    unfold resolveClient
    split <;> rfl

/-- C4 witness: the characterization applied to the `printer` example at
index 0. -/
theorem handle_duplicates_spec_witness :
    ([(⟨"10.0.0.5", "printer"⟩ : Client), ⟨"10.0.0.9", "printer"⟩])[0]? =
      some ⟨"10.0.0.5", "printer"⟩
    ∧ (handle_duplicates [⟨"10.0.0.5", "printer"⟩, ⟨"10.0.0.9", "printer"⟩])[0]? =
      some ⟨"10.0.0.5",
        if countName [⟨"10.0.0.5", "printer"⟩, ⟨"10.0.0.9", "printer"⟩] "printer" > 1
        then "printer" ++ "-" ++ lastOctet "10.0.0.5"
        else "printer"⟩ :=
  ⟨by decide,
   (handle_duplicates_spec [⟨"10.0.0.5", "printer"⟩, ⟨"10.0.0.9", "printer"⟩]).2.1
     0 ⟨"10.0.0.5", "printer"⟩ (by decide)⟩

/-- C3 counterexample: with input entries `printer@10.0.0.5`,
`printer-5@10.0.0.7`, `printer@10.0.0.9`, the resolver outputs the name
`printer-5` twice, although the two entries producing it have different
last address segments (`5` and `7`): output names are not pairwise
unique. -/
theorem resolver_names_not_unique :
    ¬ ((handle_duplicates
        [⟨"10.0.0.5", "printer"⟩, ⟨"10.0.0.7", "printer-5"⟩,
         ⟨"10.0.0.9", "printer"⟩]).map Client.hostname).Nodup
    ∧ (handle_duplicates
        [⟨"10.0.0.5", "printer"⟩, ⟨"10.0.0.7", "printer-5"⟩,
         ⟨"10.0.0.9", "printer"⟩]).map Client.hostname =
      ["printer-5", "printer-5", "printer-9"]
    ∧ lastOctet "10.0.0.5" ≠ lastOctet "10.0.0.7" := by
  refine ⟨?_, by decide, by decide⟩
  decide

/-- C3 (amended): two entries that carry the SAME duplicated input name and
whose last address segments differ always receive distinct output names;
pairwise uniqueness of all output names does not hold in general. -/
theorem resolver_distinct_on_same_name (l : List Client) (i j : Nat)
    (c1 c2 : Client) (h1 : l[i]? = some c1) (h2 : l[j]? = some c2)
    (hname : c1.hostname = c2.hostname)
    (hdup : countName l c1.hostname > 1)
    (hoct : lastOctet c1.ip ≠ lastOctet c2.ip) :
    ∀ d1 d2 : Client,
      (handle_duplicates l)[i]? = some d1 →
      (handle_duplicates l)[j]? = some d2 →
      d1.hostname ≠ d2.hostname := by
  intro d1 d2 hd1 hd2
  rw [handle_duplicates_eq_map, List.getElem?_map, h1, Option.map_some'] at hd1
  rw [handle_duplicates_eq_map, List.getElem?_map, h2, Option.map_some'] at hd2
  have e1 : d1 = resolveClient (countName l) c1 := (Option.some_inj.mp hd1).symm
  have e2 : d2 = resolveClient (countName l) c2 := (Option.some_inj.mp hd2).symm
  rw [e1, e2]
  unfold resolveClient
  rw [if_pos hdup, if_pos (hname ▸ hdup)]
  intro heq
  simp only at heq
  rw [← hname] at heq
  have : ("-" : String) ++ lastOctet c1.ip = "-" ++ lastOctet c2.ip := by
    have h3 : c1.hostname ++ ("-" ++ lastOctet c1.ip) =
        c1.hostname ++ ("-" ++ lastOctet c2.ip) := by
      rw [← String.append_assoc, ← String.append_assoc]
      exact heq
    exact string_append_cancel_left _ _ _ h3
  exact hoct (string_append_cancel_left _ _ _ this)

/-- C3 witness (for the amended claim): the two `printer` entries receive
the distinct names `printer-5` and `printer-9`. -/
theorem resolver_distinct_on_same_name_witness :
    (Client.mk "10.0.0.5" "printer-5").hostname ≠
      (Client.mk "10.0.0.9" "printer-9").hostname :=
  resolver_distinct_on_same_name
    [⟨"10.0.0.5", "printer"⟩, ⟨"10.0.0.9", "printer"⟩] 0 1
    ⟨"10.0.0.5", "printer"⟩ ⟨"10.0.0.9", "printer"⟩
    (by decide) (by decide) rfl (by decide) (by decide)
    ⟨"10.0.0.5", "printer-5"⟩ ⟨"10.0.0.9", "printer-9"⟩
    (by decide) (by decide)

/-- A record whose fqdn maps to its own address is skipped with no store
call, independently of dry-run mode and of the store's behavior. -/
theorem syncClient_skip (existing : String → Option String) (domain : String)
    (upsert : String → String → Bool) (dryRun : Bool) (c : Client)
    (h : existing (fqdnOf domain c) = some c.ip) :
    syncClient existing domain upsert dryRun c = (Action.Skipped, []) := by
  simp [syncClient, h]

/-- In dry-run mode no store call is ever recorded for a client. -/
theorem syncClient_dry_calls (existing : String → Option String) (domain : String)
    (upsert : String → String → Bool) (c : Client) :
    (syncClient existing domain upsert true c).2 = [] := by
  cases h : existing (fqdnOf domain c) with
  | none => simp [syncClient, h]
  | some addr =>
    by_cases h2 : addr = c.ip <;> simp [syncClient, h, h2]

/-- The outcome tallied in dry-run mode equals the outcome of a real run
whose every upsert succeeds. -/
theorem actionOf_dry (existing : String → Option String) (domain : String)
    (upsert : String → String → Bool) (c : Client) :
    actionOf existing domain upsert true c =
      actionOf existing domain (fun _ _ => true) false c := by
  unfold actionOf
  cases h : existing (fqdnOf domain c) with
  | none => simp [syncClient, h]
  | some addr =>
    by_cases h2 : addr = c.ip <;> simp [syncClient, h, h2]

/-- Tallying one more outcome onto counted outcomes counts the longer
list. -/
theorem tally_countsOf (acts : List Action) (a : Action) :
    tally (countsOf acts) a = countsOf (a :: acts) := by
  cases a <;> simp [tally, countsOf, List.count_cons]

/-- The loop's counters count each record's own outcome: the counters are a
per-outcome tally of the independent per-record results. -/
theorem syncLoop_counts (existing : String → Option String) (domain : String)
    (upsert : String → String → Bool) (dryRun : Bool) :
    ∀ cs : List Client,
      (syncLoop existing domain upsert dryRun cs).1 =
        countsOf (cs.map (actionOf existing domain upsert dryRun))
  | [] => rfl
  | c :: rest => by
    rw [List.map_cons, ← tally_countsOf]
    rw [show (syncLoop existing domain upsert dryRun (c :: rest)).1 =
      tally (syncLoop existing domain upsert dryRun rest).1
        (syncClient existing domain upsert dryRun c).1 from rfl]
    rw [syncLoop_counts existing domain upsert dryRun rest]
    rfl

/-- The loop's store-call trace in dry-run mode is empty. -/
theorem syncLoop_dry_calls (existing : String → Option String) (domain : String)
    (upsert : String → String → Bool) :
    ∀ cs : List Client, (syncLoop existing domain upsert true cs).2 = []
  | [] => rfl
  | c :: rest => by
    rw [show (syncLoop existing domain upsert true (c :: rest)).2 =
      (syncClient existing domain upsert true c).2 ++
        (syncLoop existing domain upsert true rest).2 from rfl]
    rw [syncClient_dry_calls, syncLoop_dry_calls existing domain upsert rest]
    rfl

/-- The four counters of counted outcomes sum to the number of records. -/
theorem countsOf_total : ∀ acts : List Action,
    (countsOf acts).added + (countsOf acts).updated +
      (countsOf acts).skipped + (countsOf acts).failed = acts.length
  | [] => rfl
  | a :: acts => by
    have ih := countsOf_total acts
    cases a <;> simp [countsOf, List.count_cons] at ih ⊢ <;> omega

/-- When every desired fqdn already maps to its desired address, the loop
skips every record, makes no store call, and counts only Skipped. -/
theorem syncLoop_all_skip (existing : String → Option String) (domain : String)
    (upsert : String → String → Bool) (dryRun : Bool) :
    ∀ cs : List Client, (∀ c ∈ cs, existing (fqdnOf domain c) = some c.ip) →
      syncLoop existing domain upsert dryRun cs = (⟨0, 0, cs.length, 0⟩, [])
  | [], _ => rfl
  | c :: rest, h => by
    have hc := syncClient_skip existing domain upsert dryRun c
      (h c (List.mem_cons_self c rest))
    have ih := syncLoop_all_skip existing domain upsert dryRun rest
      (fun x hx => h x (List.mem_cons_of_mem c hx))
    rw [show syncLoop existing domain upsert dryRun (c :: rest) =
      (tally (syncLoop existing domain upsert dryRun rest).1
        (syncClient existing domain upsert dryRun c).1,
       (syncClient existing domain upsert dryRun c).2 ++
        (syncLoop existing domain upsert dryRun rest).2) from rfl]
    rw [hc, ih]
    rfl

/-- A list whose `isEmpty` is `true` is `[]`. -/
theorem eq_nil_of_isEmpty {α : Type} {l : List α} (h : l.isEmpty = true) : l = [] := by
  cases l with
  | nil => rfl
  | cons a t => exact Bool.noConfusion h

/-- A non-`[]` list has `isEmpty = false`. -/
theorem isEmpty_false_of_ne_nil {α : Type} {l : List α} (h : l ≠ []) :
    l.isEmpty = false := by
  cases l with
  | nil => exact absurd rfl h
  | cons a t => rfl

/-- The run on an empty client list: success, zero counters, no call. -/
theorem sync_run_empty (sid csrf : Option String)
    (existing : String → Option String) (domain : String)
    (upsert : String → String → Bool) (dryRun : Bool) :
    sync_dhcp_to_dns [] sid csrf existing domain upsert dryRun =
      (true, ⟨0, 0, 0, 0⟩, []) := rfl

/-- The run on a non-empty client list with successful authentication is
the loop's result, with success `failed == 0`. -/
theorem sync_run_eq (clients : List Client) (sid csrf : Option String)
    (existing : String → Option String) (domain : String)
    (upsert : String → String → Bool) (dryRun : Bool)
    (hne : clients.isEmpty = false) (hauth : authenticate sid csrf = true) :
    sync_dhcp_to_dns clients sid csrf existing domain upsert dryRun =
      ((syncLoop existing domain upsert dryRun clients).1.failed == 0,
       (syncLoop existing domain upsert dryRun clients).1,
       (syncLoop existing domain upsert dryRun clients).2) := by
  unfold sync_dhcp_to_dns
  rw [hne, hauth]
  exact rfl

/-- C1: per desired record, an fqdn absent from the current mapping gives
an upsert counted Added, an fqdn present with the same address gives no
store call and is counted Skipped, and an fqdn present with a different
address gives an upsert counted Updated. -/
theorem reconcile_decision (existing : String → Option String) (domain : String)
    (upsert : String → String → Bool) (c : Client) :
    (existing (fqdnOf domain c) = none → upsert c.hostname c.ip = true →
      syncClient existing domain upsert false c =
        (Action.Added, [(c.hostname, c.ip)]))
    ∧ (existing (fqdnOf domain c) = some c.ip →
      ∀ dryRun : Bool,
        syncClient existing domain upsert dryRun c = (Action.Skipped, []))
    ∧ (∀ addr : String, existing (fqdnOf domain c) = some addr → addr ≠ c.ip →
      upsert c.hostname c.ip = true →
      syncClient existing domain upsert false c =
        (Action.Updated, [(c.hostname, c.ip)])) := by
  refine ⟨fun h1 h2 => ?_,
    fun h dryRun => syncClient_skip existing domain upsert dryRun c h,
    fun addr h1 h2 h3 => ?_⟩
  · simp [syncClient, h1, h2]
  · simp [syncClient, h1, h2, h3]

/-- C1 witness: the three decision cases at concrete inputs. -/
theorem reconcile_decision_witness :
    syncClient (fun _ => none) "lan" (fun _ _ => true) false ⟨"1.2.3.4", "pc"⟩ =
      (Action.Added, [("pc", "1.2.3.4")])
    ∧ syncClient (fun _ => some "1.2.3.4") "lan" (fun _ _ => true) false
        ⟨"1.2.3.4", "pc"⟩ = (Action.Skipped, [])
    ∧ syncClient (fun _ => some "5.6.7.8") "lan" (fun _ _ => true) false
        ⟨"1.2.3.4", "pc"⟩ = (Action.Updated, [("pc", "1.2.3.4")]) :=
  ⟨(reconcile_decision (fun _ => none) "lan" (fun _ _ => true)
      ⟨"1.2.3.4", "pc"⟩).1 rfl rfl,
   (reconcile_decision (fun _ => some "1.2.3.4") "lan" (fun _ _ => true)
      ⟨"1.2.3.4", "pc"⟩).2.1 rfl false,
   (reconcile_decision (fun _ => some "5.6.7.8") "lan" (fun _ _ => true)
      ⟨"1.2.3.4", "pc"⟩).2.2 "5.6.7.8" rfl (by decide) rfl⟩

/-- C2: against a current mapping in which every desired fqdn already holds
its desired address, the run skips every record, counts zero Added, Updated
and Failed, makes no store call, and reports overall success. -/
theorem sync_convergence (clients : List Client) (sid csrf : Option String)
    (existing : String → Option String) (domain : String)
    (upsert : String → String → Bool) (dryRun : Bool)
    (hauth : authenticate sid csrf = true)
    (hconv : ∀ c ∈ clients, existing (fqdnOf domain c) = some c.ip) :
    (∀ c ∈ clients, (syncClient existing domain upsert dryRun c).1 = Action.Skipped)
    ∧ (syncLoop existing domain upsert dryRun clients).1 =
        ⟨0, 0, clients.length, 0⟩
    ∧ (syncLoop existing domain upsert dryRun clients).2 = []
    ∧ (sync_dhcp_to_dns clients sid csrf existing domain upsert dryRun).1 = true := by
  refine ⟨fun c hc => by
      rw [syncClient_skip existing domain upsert dryRun c (hconv c hc)],
    ?_, ?_, ?_⟩
  · rw [syncLoop_all_skip existing domain upsert dryRun clients hconv]
  · rw [syncLoop_all_skip existing domain upsert dryRun clients hconv]
  · cases hemp : clients.isEmpty with
    | true =>
      rw [eq_nil_of_isEmpty hemp, sync_run_empty]
    | false =>
      rw [sync_run_eq clients sid csrf existing domain upsert dryRun hemp hauth]
      rw [syncLoop_all_skip existing domain upsert dryRun clients hconv]
      exact rfl

/-- C2 witness: one record whose fqdn already maps to its address is
skipped. -/
theorem sync_convergence_witness :
    (syncLoop (fun s => if s = "a.lan" then some "10.0.0.5" else none) "lan"
      (fun _ _ => true) false [⟨"10.0.0.5", "a"⟩]).1 = ⟨0, 0, 1, 0⟩ :=
  (sync_convergence [⟨"10.0.0.5", "a"⟩] (some "sid") (some "csrf")
    (fun s => if s = "a.lan" then some "10.0.0.5" else none) "lan"
    (fun _ _ => true) false rfl (by decide)).2.1

/-- C5: a dry run makes no store call at all, and its counters equal those
of a real run over the same clients and current state in which every upsert
succeeds (each record's intended action, tallied under the same
categories). -/
theorem dry_run_no_writes (clients : List Client) (sid csrf : Option String)
    (existing : String → Option String) (domain : String)
    (upsert : String → String → Bool) :
    (sync_dhcp_to_dns clients sid csrf existing domain upsert true).2.2 = []
    ∧ (sync_dhcp_to_dns clients sid csrf existing domain upsert true).2.1 =
      (sync_dhcp_to_dns clients sid csrf existing domain
        (fun _ _ => true) false).2.1 := by
  cases hemp : clients.isEmpty with
  | true =>
    rw [eq_nil_of_isEmpty hemp, sync_run_empty, sync_run_empty]
    exact ⟨rfl, rfl⟩
  | false =>
    cases hauth : authenticate sid csrf with
    | false =>
      unfold sync_dhcp_to_dns
      rw [hemp, hauth]
      exact ⟨rfl, rfl⟩
    | true =>
      rw [sync_run_eq clients sid csrf existing domain upsert true hemp hauth,
        sync_run_eq clients sid csrf existing domain (fun _ _ => true) false
          hemp hauth]
      refine ⟨syncLoop_dry_calls existing domain upsert clients, ?_⟩
      show (syncLoop existing domain upsert true clients).1 =
        (syncLoop existing domain (fun _ _ => true) false clients).1
      rw [syncLoop_counts existing domain upsert true clients,
        syncLoop_counts existing domain (fun _ _ => true) false clients]
      have hf : actionOf existing domain upsert true =
          actionOf existing domain (fun _ _ => true) false :=
        funext (actionOf_dry existing domain upsert)
      rw [hf]

/-- C6: in a real run the counters are the per-outcome tally of each
record's own independent result (so one record's failure never disturbs
the others' accounting), every record is counted exactly once, and the
overall success flag equals `failed == 0`. -/
theorem partial_failure_accounting (clients : List Client) (sid csrf : Option String)
    (existing : String → Option String) (domain : String)
    (upsert : String → String → Bool)
    (hauth : authenticate sid csrf = true) :
    (syncLoop existing domain upsert false clients).1 =
      countsOf (clients.map (actionOf existing domain upsert false))
    ∧ (syncLoop existing domain upsert false clients).1.added +
        (syncLoop existing domain upsert false clients).1.updated +
        (syncLoop existing domain upsert false clients).1.skipped +
        (syncLoop existing domain upsert false clients).1.failed = clients.length
    ∧ (sync_dhcp_to_dns clients sid csrf existing domain upsert false).1 =
        ((syncLoop existing domain upsert false clients).1.failed == 0) := by
  refine ⟨syncLoop_counts existing domain upsert false clients, ?_, ?_⟩
  · rw [syncLoop_counts existing domain upsert false clients, countsOf_total,
      List.length_map]
  · cases hemp : clients.isEmpty with
    | true =>
      rw [eq_nil_of_isEmpty hemp, sync_run_empty]
      rfl
    | false =>
      rw [sync_run_eq clients sid csrf existing domain upsert false hemp hauth]

/-- C6 witness: among two records to add, the store accepts `a` and rejects
`b`; the run reports overall failure. -/
theorem partial_failure_accounting_witness :
    (sync_dhcp_to_dns [⟨"10.0.0.5", "a"⟩, ⟨"10.0.0.6", "b"⟩] (some "sid")
      (some "csrf") (fun _ => none) "lan" (fun h _ => h == "a") false).1 =
      false := by
  rw [(partial_failure_accounting [⟨"10.0.0.5", "a"⟩, ⟨"10.0.0.6", "b"⟩]
    (some "sid") (some "csrf") (fun _ => none) "lan"
    (fun h _ => h == "a") rfl).2.2]
  decide

/-- C7: with a non-empty client list and failed store authentication, the
run returns overall failure with zero counters and no store call. -/
theorem auth_failure_aborts (clients : List Client) (sid csrf : Option String)
    (existing : String → Option String) (domain : String)
    (upsert : String → String → Bool) (dryRun : Bool)
    (hne : clients ≠ []) (hauth : authenticate sid csrf = false) :
    sync_dhcp_to_dns clients sid csrf existing domain upsert dryRun =
      (false, ⟨0, 0, 0, 0⟩, []) := by
  unfold sync_dhcp_to_dns
  rw [isEmpty_false_of_ne_nil hne, hauth]
  exact rfl

/-- C7 witness: one client, no session id or CSRF token: the run aborts. -/
theorem auth_failure_aborts_witness :
    sync_dhcp_to_dns [⟨"10.0.0.5", "a"⟩] none none (fun _ => none) "lan"
      (fun _ _ => true) false = (false, ⟨0, 0, 0, 0⟩, []) :=
  auth_failure_aborts [⟨"10.0.0.5", "a"⟩] none none (fun _ => none) "lan"
    (fun _ _ => true) false (by decide) rfl

/-- A raw client that passes the emptiness and subnet filters contributes
its sanitized entry to the client list. -/
theorem mem_client_list (raw : List RawClient) (subnets : List String)
    (r : RawClient) (hr : r ∈ raw) (hip : r.ip ≠ "")
    (hname : effectiveName r ≠ "")
    (hsub : passesSubnetFilter subnets r.ip = true) :
    (⟨r.ip, sanitize_hostname (effectiveName r)⟩ : Client) ∈
      client_list raw subnets := by
  unfold client_list
  refine List.mem_filterMap.mpr ⟨r, hr, ?_⟩
  simp [hip, hname, hsub]

/-- An entry whose hostname is unique in the batch survives duplicate
handling unchanged. -/
theorem mem_handle_duplicates_of_unique (l : List Client) (c : Client)
    (hc : c ∈ l) (hcount : ¬(countName l c.hostname > 1)) :
    c ∈ handle_duplicates l := by
  rw [handle_duplicates_eq_map]
  have hfix : resolveClient (countName l) c = c := by
    unfold resolveClient
    rw [if_neg hcount]
  exact hfix ▸ List.mem_map_of_mem (resolveClient (countName l)) hc

/-- C10: an observed client whose raw name is non-empty but sanitizes to
the empty string is not filtered out: when its (empty) sanitized name is
unique in the batch it survives `get_active_clients` unchanged, its fqdn is
built as `"." ++ domain`, and a real run passes the empty name to the
store's upsert call. -/
theorem empty_sanitized_name_synced (raw : List RawClient)
    (subnets : List String) (domain : String)
    (existing : String → Option String) (upsert : String → String → Bool)
    (r : RawClient) (hr : r ∈ raw) (hip : r.ip ≠ "")
    (hname : effectiveName r ≠ "")
    (hsub : passesSubnetFilter subnets r.ip = true)
    (hsan : sanitize_hostname (effectiveName r) = "")
    (huniq : countName (client_list raw subnets) "" = 1) :
    (⟨r.ip, ""⟩ : Client) ∈ get_active_clients raw subnets
    ∧ fqdnOf domain ⟨r.ip, ""⟩ = "." ++ domain
    ∧ (existing ("." ++ domain) = none → upsert "" r.ip = true →
        syncClient existing domain upsert false ⟨r.ip, ""⟩ =
          (Action.Added, [("", r.ip)])) := by
  have hmem : (⟨r.ip, ""⟩ : Client) ∈ client_list raw subnets := by
    have h := mem_client_list raw subnets r hr hip hname hsub
    rw [hsan] at h
    exact h
  have hfq : fqdnOf domain (⟨r.ip, ""⟩ : Client) = "." ++ domain := by
    show ("" : String) ++ "." ++ domain = "." ++ domain
    rw [show (("" : String) ++ ".") = "." from rfl]
  refine ⟨?_, hfq, fun hex hup => ?_⟩
  · unfold get_active_clients
    refine mem_handle_duplicates_of_unique (client_list raw subnets)
      ⟨r.ip, ""⟩ hmem ?_
    show ¬(countName (client_list raw subnets) "" > 1)
    rw [huniq]
    decide
  · have hex' : existing (fqdnOf domain ⟨r.ip, ""⟩) = none := by
      rw [hfq]
      exact hex
    simp [syncClient, hex', hup]

/-- C10 witness: a client named `!!!` sanitizes to the empty name, survives
the pipeline, and is added with an empty hostname. -/
theorem empty_sanitized_name_synced_witness :
    (⟨"10.0.0.5", ""⟩ : Client) ∈
      get_active_clients [⟨"10.0.0.5", "!!!", ""⟩] []
    ∧ syncClient (fun _ => none) "lan" (fun _ _ => true) false
        ⟨"10.0.0.5", ""⟩ = (Action.Added, [("", "10.0.0.5")]) := by
  have h := empty_sanitized_name_synced [⟨"10.0.0.5", "!!!", ""⟩] [] "lan"
    (fun _ => none) (fun _ _ => true) ⟨"10.0.0.5", "!!!", ""⟩
    (by decide) (by decide) (by decide) (by decide) (by decide) (by decide)
  exact ⟨h.1, h.2.2 rfl rfl⟩

end UnipiSync
